import Mathlib

/-!
Shallow embedding of the timestamp-generation core of the repository:
`src/timestamp_analyzer.py`, `src/smart_timestamp_generator.py` and
`src/timestamp_generator.py`.

Python `float` values are modelled as exact fractions (`PyFloat`).  Every
numeric constant appearing in the embedded code paths (2.0, 0.5, 0.7, 30,
120, 180, ...) and every comparison exercised by the theorems below is
non-borderline at the scale of the inputs involved, so exact rational
arithmetic and IEEE-754 double arithmetic agree on all of them (the one
delicate constant, `target_count * 0.7`, is compared against an integer
cluster count; for the small integer targets arising here the double
product rounds to the same side as the exact value `7 * target / 10`).
`PyFloat` is an unreduced fraction with positive denominator; Python value
equality `==` is the cross-multiplication relation `eqv`.
-/

structure PyFloat where
  num : Int
  den : Int
  den_pos : 0 < den

namespace PyFloat

def ofInt (n : Int) : PyFloat := ⟨n, 1, by omega⟩

instance (n : Nat) : OfNat PyFloat n := ⟨ofInt n⟩

/-- Python float addition (exact). -/
def add (a b : PyFloat) : PyFloat :=
  ⟨a.num * b.den + b.num * a.den, a.den * b.den, mul_pos a.den_pos b.den_pos⟩

/-- Python float subtraction (exact). -/
def sub (a b : PyFloat) : PyFloat :=
  ⟨a.num * b.den - b.num * a.den, a.den * b.den, mul_pos a.den_pos b.den_pos⟩

/-- Python float multiplication (exact). -/
def mul (a b : PyFloat) : PyFloat :=
  ⟨a.num * b.num, a.den * b.den, mul_pos a.den_pos b.den_pos⟩

/-- Python float division (exact).  Division by zero raises
`ZeroDivisionError` in Python; the `0` result of that branch is never
exercised on the Python-reachable inputs of the theorems below. -/
def div (a b : PyFloat) : PyFloat :=
  if h : 0 < b.num then ⟨a.num * b.den, a.den * b.num, mul_pos a.den_pos h⟩
  else if h2 : b.num < 0 then ⟨-(a.num * b.den), a.den * (-b.num), mul_pos a.den_pos (by omega)⟩
  else ⟨0, 1, by omega⟩

instance : Add PyFloat := ⟨add⟩
instance : Sub PyFloat := ⟨sub⟩
instance : Mul PyFloat := ⟨mul⟩
instance : Div PyFloat := ⟨div⟩

/-- The order on Python floats, by cross multiplication. -/
def le (a b : PyFloat) : Prop := a.num * b.den ≤ b.num * a.den

def lt (a b : PyFloat) : Prop := a.num * b.den < b.num * a.den

instance : LE PyFloat := ⟨le⟩
instance : LT PyFloat := ⟨lt⟩

instance decLe (a b : PyFloat) : Decidable (a ≤ b) :=
  inferInstanceAs (Decidable (a.num * b.den ≤ b.num * a.den))

instance decLt (a b : PyFloat) : Decidable (a < b) :=
  inferInstanceAs (Decidable (a.num * b.den < b.num * a.den))

/-- Python float value equality `==`. -/
def eqv (a b : PyFloat) : Prop := a.num * b.den = b.num * a.den

instance decEqv (a b : PyFloat) : Decidable (eqv a b) :=
  inferInstanceAs (Decidable (a.num * b.den = b.num * a.den))

instance : DecidableEq PyFloat := fun a b =>
  decidable_of_iff (a.num = b.num ∧ a.den = b.den) (by
    cases a; cases b; simp)

/-- Python `abs` on floats. -/
def pyAbs (a : PyFloat) : PyFloat := ⟨|a.num|, a.den, a.den_pos⟩

/-- Python `int(x)`: truncation toward zero. -/
def trunc (a : PyFloat) : Int := Int.tdiv a.num a.den

theorem le_refl (a : PyFloat) : a ≤ a := Int.le_refl _

theorem le_total (a b : PyFloat) : a ≤ b ∨ b ≤ a := Int.le_total _ _

theorem not_lt {a b : PyFloat} : ¬ a < b ↔ b ≤ a := by
  change ¬ (a.num * b.den < b.num * a.den) ↔ b.num * a.den ≤ a.num * b.den
  omega

theorem le_trans {a b c : PyFloat} (h1 : a ≤ b) (h2 : b ≤ c) : a ≤ c := by
  change a.num * b.den ≤ b.num * a.den at h1
  change b.num * c.den ≤ c.num * b.den at h2
  change a.num * c.den ≤ c.num * a.den
  have hb := b.den_pos
  have h1c := mul_le_mul_of_nonneg_right h1 (le_of_lt c.den_pos)
  have h2a := mul_le_mul_of_nonneg_right h2 (le_of_lt a.den_pos)
  nlinarith [a.den_pos, c.den_pos]

theorem le_antisymm_eqv {a b : PyFloat} (h1 : a ≤ b) (h2 : b ≤ a) : eqv a b :=
  Int.le_antisymm h1 h2

theorem eqv_zero_iff {a : PyFloat} : eqv a (ofInt 0) ↔ a.num = 0 := by
  change a.num * 1 = 0 * a.den ↔ a.num = 0
  omega

theorem ofInt_le_iff {a : PyFloat} {n : Int} : ofInt n ≤ a ↔ n * a.den ≤ a.num := by
  change n * a.den ≤ a.num * 1 ↔ n * a.den ≤ a.num
  omega

theorem le_of_eqv_zero_of_nonneg {a b : PyFloat}
    (ha : ofInt 0 ≤ a) (hab : a ≤ b) (hb : eqv b (ofInt 0)) : eqv a (ofInt 0) := by
  rw [eqv_zero_iff] at hb ⊢
  rw [ofInt_le_iff] at ha
  change a.num * b.den ≤ b.num * a.den at hab
  rw [hb] at hab
  simp at hab
  have := b.den_pos
  nlinarith

end PyFloat

/-!
Decimal rendering of natural numbers, modelling the Python f-string
interpolation of a non-negative `int` counter.  Implemented with
explicit fuel so that the kernel can evaluate it; `pyStr_inj` is the
injectivity fact needed for the title-uniqueness pass.
-/

def pyDigitChar (d : Nat) : Char :=
  match d with
  | 0 => '0' | 1 => '1' | 2 => '2' | 3 => '3' | 4 => '4'
  | 5 => '5' | 6 => '6' | 7 => '7' | 8 => '8' | _ => '9'

def pyStrGo : Nat → Nat → List Char
  | 0, _ => []
  | f + 1, n => if n < 10 then [pyDigitChar n] else pyStrGo f (n / 10) ++ [pyDigitChar (n % 10)]

/-- Python `str(n)` for a natural number `n`. -/
def pyStr (n : Nat) : String := ⟨pyStrGo (n + 1) n⟩

/-- Decimal value of a digit string, used only to prove `pyStr` injective. -/
def pyVal (cs : List Char) : Nat :=
  cs.foldl (fun a c => 10 * a + (c.toNat - 48)) 0

theorem pyVal_append_digit (l : List Char) (c : Char) :
    pyVal (l ++ [c]) = 10 * pyVal l + (c.toNat - 48) := by
  simp [pyVal, List.foldl_append]

theorem pyDigitChar_toNat {d : Nat} (h : d < 10) : (pyDigitChar d).toNat - 48 = d := by
  interval_cases d <;> rfl

theorem pyVal_pyStrGo : ∀ f n, n < f → pyVal (pyStrGo f n) = n := by
  intro f
  induction f with
  | zero => intro n h; omega
  | succ f ih =>
    intro n h
    by_cases h10 : n < 10
    · simp only [pyStrGo, if_pos h10]
      have : pyVal [pyDigitChar n] = (pyDigitChar n).toNat - 48 := by simp [pyVal]
      rw [this, pyDigitChar_toNat h10]
    · simp only [pyStrGo, if_neg h10]
      rw [pyVal_append_digit]
      have hd : n / 10 < f := by omega
      rw [ih (n / 10) hd, pyDigitChar_toNat (Nat.mod_lt n (by omega))]
      omega

theorem pyStr_inj {m n : Nat} (h : pyStr m = pyStr n) : m = n := by
  have hm : pyVal (pyStrGo (m + 1) m) = m := pyVal_pyStrGo _ _ (by omega)
  have hn : pyVal (pyStrGo (n + 1) n) = n := pyVal_pyStrGo _ _ (by omega)
  have : pyStrGo (m + 1) m = pyStrGo (n + 1) n := congrArg String.data h
  rw [this] at hm
  omega

/-!
String helpers over `String.data`, modelling the Python string methods used
by the core.  All of them are structural so that concrete runs reduce in the
kernel.
-/

/-- The whitespace characters of Python `str.strip` and `str.isspace`. -/
def pySpaceChar (c : Char) : Bool :=
  c = ' ' || c = '\t' || c = '\n' || c = '\x0d' || c = '\x0b' || c = '\x0c'

/-- Python `str.strip()`. -/
def pyStrip (s : String) : String :=
  ⟨((s.data.dropWhile pySpaceChar).reverse.dropWhile pySpaceChar).reverse⟩

/-- Python `str[:n]`. -/
def pySlice (n : Nat) (s : String) : String := ⟨s.data.take n⟩

/-- Python `str.lower()`.  `Char.toLower` lowers ASCII letters only; the
accented characters appearing in the embedded constants are already written
in lower case, where Python and this model agree. -/
def pyLower (s : String) : String := ⟨s.data.map Char.toLower⟩

def charListHasPre : List Char → List Char → Bool
  | [], _ => true
  | _ :: _, [] => false
  | p :: ps, c :: cs => p = c && charListHasPre ps cs

def charListContains (hay pat : List Char) : Bool :=
  match hay with
  | [] => pat.isEmpty
  | _ :: rest => charListHasPre pat hay || charListContains rest pat

/-- Python substring test `pat in s`. -/
def strContains (s pat : String) : Bool := charListContains s.data pat.data

/-- Python `" ".join(parts)`. -/
def joinSpace : List String → String
  | [] => ""
  | [s] => s
  | s :: rest => s ++ " " ++ joinSpace rest

/-- Word characters of the `re` module `\w` class, restricted to the
alphabet actually reachable in the embedded constants and test strings
(ASCII alphanumerics, underscore, and the accented letters of the pattern
tables). -/
def pyWordChar (c : Char) : Bool :=
  c.isAlphanum || c = '_' ||
    c ∈ ['á', 'é', 'í', 'ó', 'ú', 'â', 'ê', 'ô', 'ã', 'õ', 'ç', 'à', 'ü',
         'Á', 'É', 'Í', 'Ó', 'Ú', 'Â', 'Ê', 'Ô', 'Ã', 'Õ', 'Ç', 'À', 'Ü']

/-- Maximal runs of word characters, the units between `\b` boundaries. -/
def wordRunsGo (cs : List Char) (cur : List Char) : List (List Char) :=
  match cs with
  | [] => if cur.isEmpty then [] else [cur.reverse]
  | c :: rest =>
    if pyWordChar c then wordRunsGo rest (c :: cur)
    else if cur.isEmpty then wordRunsGo rest [] else cur.reverse :: wordRunsGo rest []

def wordRuns (s : String) : List String := (wordRunsGo s.data []).map String.mk

/-- Python `str.title()`, ASCII-faithful: upper-cases a letter that follows
a non-letter and lower-cases the rest. -/
def pyTitleGo : List Char → Bool → List Char
  | [], _ => []
  | c :: rest, prevAlpha =>
    if c.isAlpha then
      (if prevAlpha then c.toLower else c.toUpper) :: pyTitleGo rest true
    else c :: pyTitleGo rest false

def pyTitle (s : String) : String := ⟨pyTitleGo s.data false⟩

/-- First-occurrence duplicate removal (insertion order), modelling the
iteration order of a Python `dict` keyed by first insertion. -/
def firstOccDedup : List String → List String → List String
  | _, [] => []
  | seen, w :: rest =>
    if w ∈ seen then firstOccDedup seen rest
    else w :: firstOccDedup (w :: seen) rest

def countOcc (w : String) (l : List String) : Nat := (l.filter (· = w)).length

/-!
Data model, from `src/transcriber.py` and `src/timestamp_analyzer.py`.
-/

/-- `transcriber.TranscriptSegment`. -/
structure TranscriptSegment where
  start : PyFloat
  «end» : PyFloat
  text : String
deriving DecidableEq

/-- `transcriber.Transcript` (the `full_text` field is unused by the core). -/
structure Transcript where
  language : String
  segments : List TranscriptSegment
  duration : PyFloat
deriving DecidableEq

/-- `timestamp_analyzer.TopicCluster`. -/
structure TopicCluster where
  start : PyFloat
  «end» : PyFloat
  segments : List TranscriptSegment
  title : String
  keywords : List String
deriving DecidableEq

def defaultSegment : TranscriptSegment := ⟨PyFloat.ofInt 0, PyFloat.ofInt 0, ""⟩

def defaultCluster : TopicCluster := ⟨PyFloat.ofInt 0, PyFloat.ofInt 0, [], "", []⟩

def duration (c : TopicCluster) : PyFloat := c.«end» - c.start

/-!
`TimestampAnalyzer._optimize_cluster_count` (`src/timestamp_analyzer.py`,
lines 186-261).  The two `while` loops are embedded with explicit fuel;
`none` means the fuel ran out while the loop condition still held, i.e. the
Python loop would still be running after that many iterations.
-/

/-- The shrink-phase selection loop: the first strict arg-min of cluster
duration among indices satisfying `i > 0 or i < len(clusters) - 1`,
tracking `(min_duration_cluster, min_duration_value)`. -/
def shrinkSelectGo (n : Nat) : Nat → List TopicCluster → Option (Nat × PyFloat) → Option (Nat × PyFloat)
  | _, [], best => best
  | i, c :: rest, best =>
    let d := duration c
    let improve := match best with
      | none => true
      | some p => decide (d < p.2)
    let eligible := decide (0 < i) || decide (i < n - 1)
    shrinkSelectGo n (i + 1) rest (if improve && eligible then some (i, d) else best)

def shrinkSelect (cs : List TopicCluster) : Option (Nat × PyFloat) :=
  shrinkSelectGo cs.length 0 cs none

/-- Merging `clusters[i-1] ← clusters[i]` or `clusters[i] ← clusters[i+1]`:
`extend` the segments and adopt the right end, then delete the absorbed
entry (`timestamp_analyzer.py` lines 211-224). -/
def mergeClusters (a b : TopicCluster) : TopicCluster :=
  ⟨a.start, b.«end», a.segments ++ b.segments, a.title, a.keywords⟩

def mergeAt (cs : List TopicCluster) (i : Nat) : List TopicCluster :=
  if 0 < i ∧ (i = cs.length - 1 ∨
      duration (cs.getD (i - 1) defaultCluster) < duration (cs.getD (i + 1) defaultCluster)) then
    (cs.set (i - 1) (mergeClusters (cs.getD (i - 1) defaultCluster) (cs.getD i defaultCluster))).eraseIdx i
  else if i < cs.length - 1 then
    (cs.set i (mergeClusters (cs.getD i defaultCluster) (cs.getD (i + 1) defaultCluster))).eraseIdx (i + 1)
  else cs

/-- One iteration of the shrink phase (selection plus merge); `none` when
`min_duration_cluster is None` and the loop breaks. -/
def shrinkStep (cs : List TopicCluster) : Option (List TopicCluster) :=
  match shrinkSelect cs with
  | none => none
  | some (i, _) => some (mergeAt cs i)

def shrinkLoop (target : Nat) : Nat → List TopicCluster → Option (List TopicCluster)
  | 0, cs =>
    if cs.length > target ∧ cs.length > 1 then none else some cs
  | fuel + 1, cs =>
    if cs.length > target ∧ cs.length > 1 then
      match shrinkStep cs with
      | none => some cs
      | some cs2 => shrinkLoop target fuel cs2
    else some cs

/-- The grow-phase selection loop: the first strict arg-max of duration
among clusters with `duration > min_duration * 2` (and `> 0`, from the
initial `max_duration_value = 0`). -/
def growSelectGo (mind : Int) : Nat → List TopicCluster → Option Nat × PyFloat → Option Nat × PyFloat
  | _, [], best => best
  | i, c :: rest, best =>
    let d := duration c
    let takeIt := decide (best.2 < d) && decide (PyFloat.ofInt (mind * 2) < d)
    growSelectGo mind (i + 1) rest (if takeIt then (some i, d) else best)

def growSelect (cs : List TopicCluster) (mind : Int) : Option Nat :=
  (growSelectGo mind 0 cs (none, PyFloat.ofInt 0)).1

/-- Splitting a cluster at its segment midpoint (`timestamp_analyzer.py`
lines 241-259). -/
def splitCluster (c : TopicCluster) (mid : Nat) : List TopicCluster :=
  [⟨c.start, (c.segments.getD (mid - 1) defaultSegment).«end», c.segments.take mid, "", []⟩,
   ⟨(c.segments.getD mid defaultSegment).start, c.«end», c.segments.drop mid, "", []⟩]

/-- The grow-phase `while` loop.  The loop condition is
`len(clusters) < target_count * 0.7`, embedded exactly as
`10 * len < 7 * target`.  When `mid_idx = 0` the Python body changes
nothing and the loop repeats with the same state. -/
def growLoop (target : Nat) (mind : Int) : Nat → List TopicCluster → Option (List TopicCluster)
  | 0, cs =>
    if 10 * cs.length < 7 * target then none else some cs
  | fuel + 1, cs =>
    if 10 * cs.length < 7 * target then
      match growSelect cs mind with
      | none => some cs
      | some i =>
        let c := cs.getD i defaultCluster
        let mid := c.segments.length / 2
        if 0 < mid then
          growLoop target mind fuel (cs.take i ++ splitCluster c mid ++ cs.drop (i + 1))
        else
          growLoop target mind fuel cs
    else some cs

/-- `TimestampAnalyzer._optimize_cluster_count`: shrink phase, then grow
phase.  `none` means the function does not return within `fuel` iterations
of one of its loops. -/
def optimizeClusterCount (fuel : Nat) (clusters : List TopicCluster)
    (target : Nat) (mind : Int) : Option (List TopicCluster) :=
  (shrinkLoop target fuel clusters).bind (growLoop target mind fuel)

/-!
`src/smart_timestamp_generator.py`: constant tables, content windows,
window summaries and topic-change detection.
-/

/-- `SmartTimestampGenerator.TOPIC_STARTERS`. -/
def TOPIC_STARTERS : List String :=
  ["primeiro", "segundo", "terceiro", "próximo",
   "agora", "então", "vamos falar", "vamos ver",
   "outro ponto", "outra coisa", "passando para",
   "sobre", "quanto a", "em relação a", "falando sobre",
   "começando", "iniciando", "partindo"]

/-- `SmartTimestampGenerator.STOPWORDS` (a Python `set`; only membership is
used, so a list is a faithful model). -/
def STOPWORDS : List String :=
  ["o", "a", "os", "as", "um", "uma", "de", "da", "do", "em", "para",
   "com", "por", "que", "é", "não", "mas", "se", "eu", "você", "nós",
   "ele", "ela", "isso", "aqui", "ali", "lá", "onde", "quando",
   "como", "porque", "então", "né", "tá", "tipo", "assim", "aí", "daí",
   "gente", "galera", "pessoal", "cara", "mano", "beleza", "show"]

/-- `SmartTimestampGenerator.COMMON_TOPICS`, in dict insertion order. -/
def COMMON_TOPICS : List (String × List String) :=
  [("introdução", ["olá", "bem-vindo", "hoje", "vamos", "falar", "vídeo"]),
   ("configuração", ["instalar", "configurar", "setup", "ambiente", "preparar"]),
   ("conceitos", ["o que é", "como funciona", "entender", "básico", "fundamental"]),
   ("prática", ["exemplo", "demonstração", "vamos fazer", "código", "implementar"]),
   ("erros", ["erro", "problema", "bug", "falha", "não funciona", "corrigir"]),
   ("dicas", ["dica", "truque", "macete", "melhor forma", "recomendo"]),
   ("recursos", ["ferramenta", "biblioteca", "framework", "package", "módulo"]),
   ("carreira", ["junior", "sênior", "mercado", "trabalho", "emprego", "salário"]),
   ("conclusão", ["resumo", "concluir", "final", "encerrar", "tchau", "até"])]

/-- The technical-term vocabulary of `_extract_main_topics`. -/
def EXTRACT_TECH_TERMS : List String :=
  ["javascript", "python", "react", "node", "api", "backend", "frontend",
   "database", "servidor", "código", "programação", "desenvolvimento",
   "função", "variável", "classe", "método", "array", "objeto", "loop",
   "git", "github", "deploy", "docker", "aws", "vscode"]

/-- The action vocabulary of `_extract_main_topics`. -/
def EXTRACT_ACTIONS : List String :=
  ["criar", "fazer", "implementar", "desenvolver", "construir",
   "configurar", "instalar", "testar", "debugar", "resolver",
   "aprender", "estudar", "entender", "explicar"]

/-- `smart_timestamp_generator.ContentWindow`, with the two fields computed
right after construction (`summary`, `main_topics`) stored as data. -/
structure ContentWindow where
  start : PyFloat
  «end» : PyFloat
  segments : List TranscriptSegment
  full_text : String
  summary : String
  main_topics : List String
deriving DecidableEq

def defaultWindow : ContentWindow := ⟨PyFloat.ofInt 0, PyFloat.ofInt 0, [], "", "", []⟩

/-- The character class of the regex `[a-záêõç]` in `_summarize_window`. -/
def summaryClassChar (c : Char) : Bool :=
  ('a' ≤ c && c ≤ 'z') || c ∈ ['á', 'ê', 'õ', 'ç']

/-- The matches of `\b[a-záêõç]{4,}\b`: maximal word-character runs made
entirely of class characters, of length at least 4 (a run containing any
other word character offers no interior `\b` boundary, so it cannot match
partially). -/
def summaryWords (text : String) : List String :=
  (wordRuns text).filter (fun w => decide (4 ≤ w.length) && w.data.all summaryClassChar)

/-- `collections.Counter(words).most_common(3)`: distinct words keyed in
first-occurrence order, stably sorted by descending count. -/
def mostCommon3 (words : List String) : List String :=
  let distinct := firstOccDedup [] words
  let pairs := distinct.map (fun w => (w, countOcc w words))
  ((pairs.insertionSort (fun a b => b.2 ≤ a.2)).take 3).map Prod.fst

/-- `SmartTimestampGenerator._summarize_window` (lines 156-174). -/
def summarizeWindow (fullText : String) : String :=
  let text := pyLower fullText
  match COMMON_TOPICS.find? (fun p => p.2.any (fun kw => strContains text kw)) with
  | some p => p.1
  | none =>
    let words := (summaryWords text).filter (fun w => decide (w ∉ STOPWORDS))
    if words.isEmpty then "conteúdo" else joinSpace (mostCommon3 words)

/-- The matches of the `\b(?:term|...)\b` alternations in
`_extract_main_topics`: word runs equal to one of the listed terms. -/
def findLiteralTokens (lits : List String) (text : String) : List String :=
  (wordRuns text).filter (· ∈ lits)

/-- `SmartTimestampGenerator._extract_main_topics` (lines 176-204).
`list(set(tech_terms[:3]))` iterates a Python `set` whose order is
hash-dependent; it is modelled as first-occurrence order, and no theorem
below depends on that order (on every concretely evaluated input the set is
empty). -/
def extractMainTopics (fullText : String) : List String :=
  let text := pyLower fullText
  let techTerms := findLiteralTokens EXTRACT_TECH_TERMS text
  let topics := if techTerms.isEmpty then [] else firstOccDedup [] (techTerms.take 3)
  let actions := findLiteralTokens EXTRACT_ACTIONS text
  topics ++ (match actions with | [] => [] | a :: _ => [a])

def mkContentWindow (start «end» : PyFloat) (segs : List TranscriptSegment) : ContentWindow :=
  let fullText := joinSpace (segs.map (·.text))
  ⟨start, «end», segs, fullText, summarizeWindow fullText, extractMainTopics fullText⟩

/-- `SmartTimestampGenerator._create_content_windows` (lines 113-154). -/
def createWindowsGo (wsize : PyFloat) :
    List TranscriptSegment → PyFloat → List TranscriptSegment → List ContentWindow
  | [], wstart, cur =>
    match cur.getLast? with
    | none => []
    | some lastSeg => [mkContentWindow wstart lastSeg.«end» cur]
  | seg :: rest, wstart, cur =>
    let cur2 := cur ++ [seg]
    if wsize ≤ seg.«end» - wstart then
      mkContentWindow wstart seg.«end» cur2 :: createWindowsGo wsize rest seg.«end» []
    else
      createWindowsGo wsize rest wstart cur2

def createContentWindows (t : Transcript) (wsize : PyFloat) : List ContentWindow :=
  createWindowsGo wsize t.segments (PyFloat.ofInt 0) []

/-- The per-index test of `_detect_topic_changes` (lines 206-234); index
`i ≥ 1` is appended to `changes` exactly when this returns `true`.  The
similarity test `len(p & c) / len(p | c) < 0.3` is embedded exactly as
`10 * inter < 3 * union`. -/
def topicChangeAt (windows : List ContentWindow) (i : Nat) : Bool :=
  let prev := windows.getD (i - 1) defaultWindow
  let curr := windows.getD i defaultWindow
  if prev.summary ≠ curr.summary then true
  else
    let firstText := pyLower (joinSpace ((curr.segments.take 3).map (·.text)))
    if TOPIC_STARTERS.any (fun st => strContains firstText st) then true
    else
      let pT := firstOccDedup [] prev.main_topics
      let cT := firstOccDedup [] curr.main_topics
      if pT.isEmpty || cT.isEmpty then false
      else
        let inter := (pT.filter (· ∈ cT)).length
        let union := (firstOccDedup [] (prev.main_topics ++ curr.main_topics)).length
        decide (10 * inter < 3 * union)

/-- `SmartTimestampGenerator._detect_topic_changes`. -/
def detectTopicChanges (windows : List ContentWindow) : List Nat :=
  0 :: (List.range' 1 (windows.length - 1)).filter (topicChangeAt windows)

/-!
`SmartTimestampGenerator._create_title_for_window` (lines 296-368),
including the five `re.search` patterns, and the final-timestamp assembly
`_generate_final_timestamps` (lines 236-294).
-/

/-- Match the literal `pat` at the head of `cs` and return the rest. -/
def dropLit : List Char → List Char → Option (List Char)
  | [], cs => some cs
  | _ :: _, [] => none
  | p :: ps, c :: cs => if p = c then dropLit ps cs else none

/-- Consume one-or-more whitespace (`\s+`). -/
def skipWs1 (cs : List Char) : Option (List Char) :=
  if (cs.takeWhile pySpaceChar).isEmpty then none else some (cs.dropWhile pySpaceChar)

/-- Try `lit\s+(\w+)` at the current position; return the captured word. -/
def attemptLitWsWord (lit : String) (cs : List Char) : Option String :=
  match dropLit lit.data cs with
  | none => none
  | some r =>
    match skipWs1 r with
    | none => none
    | some r2 =>
      let w := r2.takeWhile pyWordChar
      if w.isEmpty then none else some ⟨w⟩

/-- `re.search` of `lit\s+(\w+)`: leftmost position where the attempt
succeeds. -/
def searchLitWsWord (lit : String) : List Char → Option String
  | [] => none
  | c :: rest =>
    match attemptLitWsWord lit (c :: rest) with
    | some w => some w
    | none => searchLitWsWord lit rest

/-- Try `(\w+)\s+lit` at the current position (`(\w+)` is greedy, and since
`\w` and `\s` are disjoint no backtracking is possible). -/
def attemptWordWsLit (lit : String) (cs : List Char) : Option String :=
  let w := cs.takeWhile pyWordChar
  if w.isEmpty then none
  else
    match skipWs1 (cs.dropWhile pyWordChar) with
    | none => none
    | some r =>
      match dropLit lit.data r with
      | some _ => some ⟨w⟩
      | none => none

def searchWordWsLit (lit : String) : List Char → Option String
  | [] => none
  | c :: rest =>
    match attemptWordWsLit lit (c :: rest) with
    | some w => some w
    | none => searchWordWsLit lit rest

/-- One alternative of `(?:do|da|com)\s+(\w+)`. -/
def attemptAltTail (alt : String) (r : List Char) : Option String :=
  match dropLit alt.data r with
  | none => none
  | some r2 =>
    match skipWs1 r2 with
    | none => none
    | some r3 =>
      let w := r3.takeWhile pyWordChar
      if w.isEmpty then none else some ⟨w⟩

/-- Try `problema\s+(?:do|da|com)\s+(\w+)` at the current position. -/
def attemptProblema (cs : List Char) : Option String :=
  match dropLit "problema".data cs with
  | none => none
  | some r =>
    match skipWs1 r with
    | none => none
    | some r2 =>
      match attemptAltTail "do" r2 with
      | some w => some w
      | none =>
        match attemptAltTail "da" r2 with
        | some w => some w
        | none => attemptAltTail "com" r2

def searchProblema : List Char → Option String
  | [] => none
  | c :: rest =>
    match attemptProblema (c :: rest) with
    | some w => some w
    | none => searchProblema rest

/-- The `topic_titles` dict of `_create_title_for_window`. -/
def topicTitles : List (String × String) :=
  [("introdução", "Apresentação do conteúdo"),
   ("configuração", "Configurando o ambiente"),
   ("conceitos", "Conceitos fundamentais"),
   ("prática", "Exemplo prático"),
   ("erros", "Erros comuns"),
   ("dicas", "Dicas importantes"),
   ("recursos", "Ferramentas e recursos"),
   ("carreira", "Sobre a carreira"),
   ("conclusão", "Considerações finais")]

/-- The `tech_terms` list local to `_create_title_for_window`. -/
def TITLE_TECH_TERMS : List String :=
  ["javascript", "python", "react", "node", "api", "backend", "frontend", "git", "docker"]

/-- The pattern cascade and fallbacks after the summary lookup. -/
def titleFromPatterns (w : ContentWindow) : String :=
  let firstSentences := joinSpace ((w.segments.take 3).map (·.text))
  let lowcs := (pyLower firstSentences).data
  match searchLitWsWord "o que é" lowcs with
  | some g => "O que é " ++ g
  | none =>
  match searchLitWsWord "como" lowcs with
  | some g => "Como " ++ g
  | none =>
  match searchLitWsWord "vamos" lowcs with
  | some g => "Vamos " ++ g
  | none =>
  match searchWordWsLit "é importante" lowcs with
  | some g => pyTitle g ++ " é importante"
  | none =>
  match searchProblema lowcs with
  | some g => "Problema com " ++ g
  | none =>
    let position := w.start / w.«end»
    if position < ⟨1, 5, by omega⟩ then "Contexto inicial"
    else if position < ⟨2, 5, by omega⟩ then "Desenvolvendo a ideia"
    else if position < ⟨3, 5, by omega⟩ then "Ponto principal"
    else if position < ⟨4, 5, by omega⟩ then "Aprofundando o tema"
    else "Conclusões"

/-- The `main_topics` branch: a known tech term yields a templated title, a
first topic longer than 3 characters is title-cased, anything else falls
through to the pattern cascade. -/
def titleFromTopics (w : ContentWindow) : String :=
  match w.main_topics.find? (· ∈ TITLE_TECH_TERMS) with
  | some term => "Trabalhando com " ++ pyTitle term
  | none =>
    match w.main_topics with
    | firstTopic :: _ =>
      if 3 < firstTopic.length then pyTitle firstTopic else titleFromPatterns w
    | [] => titleFromPatterns w

/-- `SmartTimestampGenerator._create_title_for_window`. -/
def createTitleForWindow (w : ContentWindow) (videoTitle : String) (isFirst : Bool) : String :=
  if isFirst then
    if strContains (pyLower videoTitle) "junior" || strContains (pyLower videoTitle) "jr" then
      "O que um dev junior precisa saber"
    else "Introdução"
  else
    match topicTitles.find? (fun p => p.1 = w.summary) with
    | some p => p.2
    | none =>
      if w.main_topics.isEmpty then titleFromPatterns w else titleFromTopics w

/-- A heuristic-path timestamp dict with `time` and `title` fields. -/
structure SmartTS where
  time : Int
  title : String
deriving DecidableEq

/-- The disambiguation candidate: the original title followed by a numbered " - Parte " suffix. -/
def parteCandidate (orig : String) (k : Nat) : String :=
  orig ++ " - Parte " ++ pyStr k

/-- The inner `while ts["title"] in seen_titles` loop of the uniqueness
pass, with fuel; one more unit of fuel than `seen` has entries always
suffices (`freshTitle_not_mem` below). -/
def freshLoop (orig : String) (seen : List String) : Nat → Nat → String
  | 0, k => parteCandidate orig k
  | fuel + 1, k =>
    let c := parteCandidate orig k
    if c ∈ seen then freshLoop orig seen fuel (k + 1) else c

def freshTitle (seen : List String) (orig : String) : String :=
  freshLoop orig seen (seen.length + 1) 2

/-- The title-uniqueness pass of `_generate_final_timestamps`
(lines 282-292). -/
def uniquifyTitles : List String → List SmartTS → List SmartTS
  | _, [] => []
  | seen, t :: rest =>
    let newTitle := if t.title ∈ seen then freshTitle seen t.title else t.title
    ⟨t.time, newTitle⟩ :: uniquifyTitles (newTitle :: seen) rest

/-- The first loop of `_generate_final_timestamps` (lines 247-260): one
candidate per topic change, skipped when closer than `min_duration` to the
previously kept one; `i` is the `enumerate` counter driving the
`is_first` flag. -/
def finalPhase1 (windows : List ContentWindow) (videoTitle : String) (mind : Int) :
    Nat → List Nat → Option Int → List SmartTS
  | _, [], _ => []
  | i, c :: rest, last =>
    let w := windows.getD c defaultWindow
    let skip := match last with
      | some t => decide (w.start - PyFloat.ofInt t < PyFloat.ofInt mind)
      | none => false
    if skip then finalPhase1 windows videoTitle mind (i + 1) rest last
    else
      let title := createTitleForWindow w videoTitle (decide (i = 0))
      let tm := PyFloat.trunc w.start
      ⟨tm, title⟩ :: finalPhase1 windows videoTitle mind (i + 1) rest (some tm)

/-- One index of the filler loop (lines 265-276): place `int(i * interval)`
into the first window containing it, unless that time is already taken. -/
def fillerStep (windows : List ContentWindow) (videoTitle : String) (interval : PyFloat)
    (acc : List SmartTS) (i : Nat) : List SmartTS :=
  let time := PyFloat.trunc (PyFloat.ofInt i * interval)
  match windows.find? (fun w =>
      decide (w.start ≤ PyFloat.ofInt time) && decide (PyFloat.ofInt time ≤ w.«end»)) with
  | none => acc
  | some w =>
    let title := createTitleForWindow w videoTitle false
    if acc.any (fun ts => ts.time == time) then acc else acc ++ [⟨time, title⟩]

/-- `SmartTimestampGenerator._generate_final_timestamps`.  `windows[-1]` is
modelled with `getLast?` (the Python code would raise on an empty window
list, which the pipeline never produces). -/
def generateFinalTimestamps (windows : List ContentWindow) (topicChanges : List Nat)
    (videoTitle : String) (mind : Int) : List SmartTS :=
  let ts1 := finalPhase1 windows videoTitle mind 0 topicChanges none
  let lastEnd := ((windows.getLast?).map (·.«end»)).getD (PyFloat.ofInt 0)
  let targetCount : Int := max 8 (PyFloat.trunc (lastEnd / PyFloat.ofInt 180))
  let ts2 :=
    if (ts1.length : Int) < targetCount then
      let interval := lastEnd / PyFloat.ofInt targetCount
      (List.range' ts1.length (targetCount - ts1.length).toNat).foldl
        (fillerStep windows videoTitle interval) ts1
    else ts1
  let sorted := ts2.insertionSort (fun a b => a.time ≤ b.time)
  uniquifyTitles [] (sorted.take 20)

/-- `SmartTimestampGenerator.generate` (lines 73-111). -/
def smartGenerate (t : Transcript) (videoTitle : String) (mind : Int)
    (windowSize : PyFloat) : List SmartTS :=
  if t.segments.isEmpty then [⟨0, "Início do Vídeo"⟩]
  else
    let windows := createContentWindows t windowSize
    let changes := detectTopicChanges windows
    generateFinalTimestamps windows changes videoTitle mind

/-- `generate_smart_timestamps` (module entry point, default window 120s). -/
def generate_smart_timestamps (t : Transcript) (videoTitle : String) (mind : Int) : List SmartTS :=
  smartGenerate t videoTitle mind (PyFloat.ofInt 120)

/-!
`src/timestamp_generator.py`: the model-path candidate pipeline.  The
`json.loads` call of the standard library is modelled by a small total JSON
reader with explicit fuel (`none` = `JSONDecodeError`); it covers the JSON
subset reachable through the embedded scenarios (no exponents and no
`\u` escapes, which no theorem below exercises).
-/

/-- `timestamp_generator.Timestamp`. -/
structure Timestamp where
  time : PyFloat
  title : String
  confidence : PyFloat
deriving DecidableEq

inductive Json where
  | null
  | bool (b : Bool)
  | num (v : PyFloat)
  | str (s : String)
  | arr (elems : List Json)
  | obj (fields : List (String × Json))

def jsonWsChar (c : Char) : Bool :=
  c = ' ' || c = '\t' || c = '\n' || c = '\x0d'

def skipJsonWs (cs : List Char) : List Char := cs.dropWhile jsonWsChar

def pow10 : Nat → Int
  | 0 => 1
  | k + 1 => 10 * pow10 k

theorem pow10_pos : ∀ k, 0 < pow10 k := by
  intro k
  induction k with
  | zero => norm_num [pow10]
  | succ k ih => simp only [pow10]; omega

/-- A maximal digit run and its decimal value. -/
def parseDigits (cs : List Char) : Option (Nat × Nat × List Char) :=
  let ds := cs.takeWhile Char.isDigit
  if ds.isEmpty then none else some (pyVal ds, ds.length, cs.dropWhile Char.isDigit)

/-- A JSON number: optional minus, integer digits, optional fraction. -/
def parseNumber (cs : List Char) : Option (PyFloat × List Char) :=
  let signed := match cs with
    | '-' :: r => (true, r)
    | _ => (false, cs)
  match parseDigits signed.2 with
  | none => none
  | some (ip, _, r1) =>
    match r1 with
    | '.' :: r2 =>
      (match parseDigits r2 with
       | none => none
       | some (fp, k, r3) =>
         let mag : Int := (ip : Int) * pow10 k + (fp : Int)
         some (⟨if signed.1 then -mag else mag, pow10 k, pow10_pos k⟩, r3))
    | _ => some (PyFloat.ofInt (if signed.1 then -(ip : Int) else (ip : Int)), r1)

/-- A JSON string body (after the opening quote). -/
def parseStrGo : List Char → List Char → Option (String × List Char)
  | [], _ => none
  | '"' :: rest, acc => some (⟨acc.reverse⟩, rest)
  | '\\' :: e :: rest, acc =>
    if e = '"' then parseStrGo rest ('"' :: acc)
    else if e = '\\' then parseStrGo rest ('\\' :: acc)
    else if e = '/' then parseStrGo rest ('/' :: acc)
    else if e = 'n' then parseStrGo rest ('\n' :: acc)
    else if e = 't' then parseStrGo rest ('\t' :: acc)
    else if e = 'r' then parseStrGo rest ('\x0d' :: acc)
    else if e = 'b' then parseStrGo rest ('\x08' :: acc)
    else if e = 'f' then parseStrGo rest ('\x0c' :: acc)
    else none
  | c :: rest, acc => parseStrGo rest (c :: acc)

mutual

def parseVal : Nat → List Char → Option (Json × List Char)
  | 0, _ => none
  | fuel + 1, cs =>
    match skipJsonWs cs with
    | [] => none
    | c :: rest =>
      if c = '{' then
        match skipJsonWs rest with
        | '}' :: r2 => some (Json.obj [], r2)
        | r2 => parseObjTail fuel r2 []
      else if c = '[' then
        match skipJsonWs rest with
        | ']' :: r2 => some (Json.arr [], r2)
        | r2 => parseArrTail fuel r2 []
      else if c = '"' then
        match parseStrGo rest [] with
        | none => none
        | some (s, r2) => some (Json.str s, r2)
      else if c = 't' then
        match dropLit "rue".data rest with
        | none => none
        | some r2 => some (Json.bool true, r2)
      else if c = 'f' then
        match dropLit "alse".data rest with
        | none => none
        | some r2 => some (Json.bool false, r2)
      else if c = 'n' then
        match dropLit "ull".data rest with
        | none => none
        | some r2 => some (Json.null, r2)
      else
        match parseNumber (c :: rest) with
        | none => none
        | some (v, r2) => some (Json.num v, r2)
  termination_by structural fuel => fuel

def parseObjTail : Nat → List Char → List (String × Json) → Option (Json × List Char)
  | 0, _, _ => none
  | fuel + 1, cs, acc =>
    match skipJsonWs cs with
    | '"' :: rest =>
      (match parseStrGo rest [] with
       | none => none
       | some (k, r2) =>
         match skipJsonWs r2 with
         | ':' :: r3 =>
           (match parseVal fuel r3 with
            | none => none
            | some (v, r4) =>
              match skipJsonWs r4 with
              | ',' :: r5 => parseObjTail fuel r5 ((k, v) :: acc)
              | '}' :: r5 => some (Json.obj ((k, v) :: acc).reverse, r5)
              | _ => none)
         | _ => none)
    | _ => none
  termination_by structural fuel => fuel

def parseArrTail : Nat → List Char → List Json → Option (Json × List Char)
  | 0, _, _ => none
  | fuel + 1, cs, acc =>
    match parseVal fuel cs with
    | none => none
    | some (v, rest) =>
      match skipJsonWs rest with
      | ',' :: r2 => parseArrTail fuel r2 (v :: acc)
      | ']' :: r2 => some (Json.arr (v :: acc).reverse, r2)
      | _ => none
  termination_by structural fuel => fuel

end

/-- `json.loads`: a whole-string JSON value, rejecting trailing garbage. -/
def parseJsonTop (s : String) : Option Json :=
  match parseVal (2 * s.data.length + 2) s.data with
  | none => none
  | some (v, rest) => if (skipJsonWs rest).isEmpty then some v else none

/-- The regex search for a brace-delimited block (line 333): the pattern is
greedy, so the match runs from the first opening brace to the last closing
brace, and exists exactly when some closing brace follows some opening
brace. -/
def jsonExtract (s : String) : Option String :=
  let cs := s.data
  match cs.findIdx? (· = '{') with
  | none => none
  | some i =>
    match cs.reverse.findIdx? (· = '}') with
    | none => none
    | some jr =>
      let j := cs.length - 1 - jr
      if i < j then some ⟨(cs.take (j + 1)).drop i⟩ else none

/-- Extraction plus decoding; `none` covers both the no-match fallback and
the `JSONDecodeError` fallback of lines 333-342. -/
def extractStage (s : String) : Option Json := (jsonExtract s).bind parseJsonTop

/-- Python `dict.get` over decoded JSON object fields (late duplicate keys
win, as in `json.loads`). -/
def jsonGetField (fields : List (String × Json)) (k : String) : Option Json :=
  ((fields.filter (fun p => p.1 = k)).getLast?).map (·.2)

/-- `data.get("timestamps", [])`.  A successfully decoded slice starting at
a brace is always an object, so the non-object arm is unreachable. -/
def rawTimestampsOf (j : Json) : Json :=
  match j with
  | Json.obj fields => (jsonGetField fields "timestamps").getD (Json.arr [])
  | _ => Json.arr []

/-- Python truthiness of a decoded JSON value. -/
def jsonFalsy : Json → Bool
  | Json.null => true
  | Json.bool b => !b
  | Json.num v => v.num == 0
  | Json.str s => s.isEmpty
  | Json.arr xs => xs.isEmpty
  | Json.obj fs => fs.isEmpty

/-- `for ts in raw_timestamps`: lists iterate their elements, strings their
characters, dicts their keys; iterating a number or boolean raises an
uncaught `TypeError`, modelled as `none`. -/
def iterElems : Json → Option (List Json)
  | Json.arr xs => some xs
  | Json.str s => some (s.data.map (fun c => Json.str ⟨[c]⟩))
  | Json.obj fs => some (fs.map (fun p => Json.str p.1))
  | _ => none

/-- `float(x)` on a decoded JSON value: numbers pass through, booleans map
to 0/1, numeric strings are read (plain decimal forms; Python also accepts
exponents, which no embedded input uses), everything else raises the caught
`ValueError`/`TypeError`. -/
def parseFloatMag (cs : List Char) : Option PyFloat :=
  match parseDigits cs with
  | some (ip, _, r1) =>
    (match r1 with
     | [] => some (PyFloat.ofInt (ip : Int))
     | ['.'] => some (PyFloat.ofInt (ip : Int))
     | '.' :: r2 =>
       (match parseDigits r2 with
        | some (fp, k, []) => some ⟨(ip : Int) * pow10 k + (fp : Int), pow10 k, pow10_pos k⟩
        | _ => none)
     | _ => none)
  | none =>
    match cs with
    | '.' :: r2 =>
      (match parseDigits r2 with
       | some (fp, k, []) => some ⟨(fp : Int), pow10 k, pow10_pos k⟩
       | _ => none)
    | _ => none

def parseFloatStr (s : String) : Option PyFloat :=
  let cs := (s.data.dropWhile pySpaceChar).reverse.dropWhile pySpaceChar |>.reverse
  let signed := match cs with
    | '-' :: r => (true, r)
    | '+' :: r => (false, r)
    | _ => (false, cs)
  match parseFloatMag signed.2 with
  | none => none
  | some v => some (if signed.1 then ⟨-v.num, v.den, v.den_pos⟩ else v)

def pyFloatOfJson : Json → Option PyFloat
  | Json.num v => some v
  | Json.bool b => some (PyFloat.ofInt (if b then 1 else 0))
  | Json.str s => parseFloatStr s
  | _ => none

/-- Rendering of `Nat.succ`-free integers for `str()`. -/
def intRepr (n : Int) : String :=
  if n < 0 then "-" ++ pyStr n.natAbs else pyStr n.natAbs

/-- `str(x)` on a decoded JSON value.  Container and non-integral renderings
are simplified (no theorem or witness feeds a non-string, non-missing
title). -/
def pyStrOfJson : Json → String
  | Json.str s => s
  | Json.null => "None"
  | Json.bool true => "True"
  | Json.bool false => "False"
  | Json.num v => if v.den = 1 then intRepr v.num else intRepr v.num ++ "/" ++ intRepr v.den
  | Json.arr _ => "list"
  | Json.obj _ => "dict"

/-- The validation loop of `parse_timestamps_from_response` (lines
349-381), with `last` tracking `last_time` (initially `-min_duration`). -/
def validateEntries (dur : PyFloat) (mind : Int) : PyFloat → List Json → List Timestamp
  | _, [] => []
  | last, e :: rest =>
    match e with
    | Json.obj fields =>
      (match pyFloatOfJson ((jsonGetField fields "time").getD (Json.num (PyFloat.ofInt 0))) with
       | none => validateEntries dur mind last rest
       | some t0 =>
         let title := pyStrip (pyStrOfJson ((jsonGetField fields "title").getD (Json.str "")))
         if title = "" then validateEntries dur mind last rest
         else
           let t := if t0 < PyFloat.ofInt 0 then PyFloat.ofInt 0 else t0
           if dur < t then validateEntries dur mind last rest
           else if t - last < PyFloat.ofInt mind ∧ ¬ PyFloat.eqv t (PyFloat.ofInt 0) then
             validateEntries dur mind last rest
           else
             ⟨t, pySlice 100 title, PyFloat.ofInt 1⟩ :: validateEntries dur mind t rest)
    | _ => validateEntries dur mind last rest

def fallbackTS : Timestamp := ⟨PyFloat.ofInt 0, "Video Content", ⟨1, 2, by omega⟩⟩

def introTS : Timestamp := ⟨PyFloat.ofInt 0, "Introduction", PyFloat.ofInt 1⟩

/-- The order used by `timestamps.sort(key=lambda x: x.time)`. -/
def tsLe (a b : Timestamp) : Prop := a.time ≤ b.time

instance : DecidableRel tsLe := fun a b => PyFloat.decLe a.time b.time

instance : IsTotal Timestamp tsLe := ⟨fun a b => PyFloat.le_total a.time b.time⟩

instance : IsTrans Timestamp tsLe := ⟨fun _ _ _ => PyFloat.le_trans⟩

/-- Lines 383-390: guarantee a leading introduction entry, then sort by
time (Python `list.sort` is stable; `insertionSort` is the matching stable
sort). -/
def finalizeTimestamps (l : List Timestamp) : List Timestamp :=
  let withIntro := match l with
    | [] => [introTS]
    | h :: _ => if PyFloat.ofInt 5 < h.time then introTS :: l else l
  withIntro.insertionSort tsLe

/-- `parse_timestamps_from_response` (lines 316-390).  `none` models the
uncaught `TypeError` of iterating a truthy non-iterable `timestamps`
field; every enumerated defect instead lands in a `some` fallback. -/
def parse_timestamps_from_response (response : String) (dur : PyFloat) (mind : Int) :
    Option (List Timestamp) :=
  match extractStage response with
  | none => some [fallbackTS]
  | some j =>
    let raw := rawTimestampsOf j
    if jsonFalsy raw then some [fallbackTS]
    else
      match iterElems raw with
      | none => none
      | some entries =>
        some (finalizeTimestamps (validateEntries dur mind (PyFloat.ofInt (-mind)) entries))

/-- The supplement merge of `generate_timestamps` (lines 289-297):
`existing_times` is a snapshot of the model-origin times, a heuristic
candidate is kept only when no model-origin time lies within 30 seconds,
and the union is re-sorted by time. -/
def mergeTimestamps (ts heur : List Timestamp) : List Timestamp :=
  let merged := ts ++ heur.filter (fun h =>
    ! ts.any (fun m => decide (PyFloat.pyAbs (h.time - m.time) < PyFloat.ofInt 30)))
  merged.insertionSort tsLe

/-- `expected_count = max(5, int(transcript.duration / 150))`. -/
def expectedCount (dur : PyFloat) : Int :=
  max 5 (PyFloat.trunc (dur / PyFloat.ofInt 150))

/-- The heuristic fallback path of `generate_timestamps` (lines 156-169):
smart candidates converted to `Timestamp` records with confidence 0.8. -/
def generate_timestamps_heuristic_path (t : Transcript) (videoTitle : String) (mind : Int) :
    List Timestamp :=
  (generate_smart_timestamps t videoTitle mind).map
    (fun s => ⟨PyFloat.ofInt s.time, s.title, ⟨4, 5, by omega⟩⟩)

/-- The model path of `generate_timestamps` (lines 189-300) with the
network exchange abstracted into the raw reply `llmResponse`: the
empty-transcript guard, response parsing, and the under-delivery merge when
the validated list is smaller than `expected_count * 0.5` (embedded exactly
as `2 * len < expected`).  Heuristic supplements carry confidence 0.7. -/
def generate_timestamps_model (t : Transcript) (videoTitle : String) (mind : Int)
    (llmResponse : String) : Option (List Timestamp) :=
  if t.segments.isEmpty then
    some [⟨PyFloat.ofInt 0,
           if t.language = "pt" ∨ t.language = "pt-br" then "Conteúdo do Vídeo" else "Video Content",
           ⟨1, 2, by omega⟩⟩]
  else
    match parse_timestamps_from_response llmResponse t.duration mind with
    | none => none
    | some ts =>
      if 2 * (ts.length : Int) < expectedCount t.duration then
        let heur := (generate_smart_timestamps t videoTitle mind).map
          (fun s => ⟨PyFloat.ofInt s.time, s.title, ⟨7, 10, by omega⟩⟩)
        some (mergeTimestamps ts heur)
      else some ts

/-!
Claim theorems.
-/

/-- A single-segment cluster of duration 100: longer than `2 * 10`, so the
grow phase selects it, but `mid_idx = len(segments) // 2 = 0`, so the split
is skipped and the loop state never changes. -/
def stuckCluster : TopicCluster :=
  ⟨PyFloat.ofInt 0, PyFloat.ofInt 100, [⟨PyFloat.ofInt 0, PyFloat.ofInt 100, "a"⟩], "", []⟩

theorem shrinkLoop_stuckCluster (fuel : Nat) :
    shrinkLoop 2 fuel [stuckCluster] = some [stuckCluster] := by
  cases fuel <;> simp [shrinkLoop]

theorem growLoop_stuckCluster (fuel : Nat) :
    growLoop 2 10 fuel [stuckCluster] = none := by
  induction fuel with
  | zero => simp [growLoop]
  | succ f ih =>
    have hsel : growSelect [stuckCluster] 10 = some 0 := rfl
    simp only [growLoop, hsel]
    norm_num [stuckCluster]
    exact ih

/-- C1.  The claim asserts that `_optimize_cluster_count` terminates for
every cluster list, every target `T ≥ 1` and every minimum duration, each
iteration strictly changing the cluster count.  The code violates this: on
a list containing one single-segment cluster whose duration exceeds
`2 * min_duration`, with `len(clusters) < 0.7 * target_count`, the grow
phase selects the cluster, computes `mid_idx = 0`, performs no splice, and
re-enters the loop with an unchanged state — the Python `while` loop never
exits.  Formally, for every amount of fuel the embedded optimizer reports
that its grow loop is still running. -/
theorem claim_c1_optimizer_diverges (fuel : Nat) :
    optimizeClusterCount fuel [stuckCluster] 2 10 = none := by
  unfold optimizeClusterCount
  rw [shrinkLoop_stuckCluster fuel]
  simpa using growLoop_stuckCluster fuel

theorem PyFloat.le_of_lt {a b : PyFloat} (h : a < b) : a ≤ b := Int.le_of_lt h

theorem shrinkSelectGo_eligible {n i : Nat} (hn : 2 ≤ n) :
    (decide (0 < i) || decide (i < n - 1)) = true := by
  rcases Nat.eq_zero_or_pos i with h | h
  · subst h; simp; omega
  · simp; omega

/-- Value minimality of the shrink-phase selection loop. -/
theorem shrinkSelectGo_min {n : Nat} (hn : 2 ≤ n) :
    ∀ (rest : List TopicCluster) (i : Nat) (best : Option (Nat × PyFloat)) (j : Nat) (dj : PyFloat),
      shrinkSelectGo n i rest best = some (j, dj) →
      (∀ c ∈ rest, dj ≤ duration c) ∧ (∀ p : Nat × PyFloat, best = some p → dj ≤ p.2) := by
  intro rest
  induction rest with
  | nil =>
    intro i best j dj h
    simp only [shrinkSelectGo] at h
    subst h
    refine ⟨by simp, fun p hp => ?_⟩
    injection hp with hp
    subst hp
    exact PyFloat.le_refl _
  | cons c rest ih =>
    intro i best j dj h
    simp only [shrinkSelectGo, shrinkSelectGo_eligible hn, Bool.and_true] at h
    match best, h with
    | none, h =>
      have := ih (i + 1) (some (i, duration c)) j dj (by simpa using h)
      refine ⟨?_, fun p hp => by simp at hp⟩
      intro c' hc'
      rcases List.mem_cons.mp hc' with rfl | hmem
      · exact this.2 _ rfl
      · exact this.1 c' hmem
    | some p0, h =>
      by_cases himp : duration c < p0.2
      · rw [if_pos (by simpa using himp)] at h
        have := ih (i + 1) (some (i, duration c)) j dj h
        have hdc : dj ≤ duration c := this.2 _ rfl
        refine ⟨?_, ?_⟩
        · intro c' hc'
          rcases List.mem_cons.mp hc' with rfl | hmem
          · exact hdc
          · exact this.1 c' hmem
        · intro p hp
          injection hp with hp; subst hp
          exact PyFloat.le_trans hdc (PyFloat.le_of_lt himp)
      · rw [if_neg (by simpa using himp)] at h
        have := ih (i + 1) (some p0) j dj h
        have hp0 : dj ≤ p0.2 := this.2 _ rfl
        refine ⟨?_, ?_⟩
        · intro c' hc'
          rcases List.mem_cons.mp hc' with rfl | hmem
          · exact PyFloat.le_trans hp0 (PyFloat.not_lt.mp himp)
          · exact this.1 c' hmem
        · intro p hp
          injection hp with hp; subst hp
          exact hp0

/-- Realizability of the shrink-phase selection loop. -/
theorem shrinkSelectGo_mem {n : Nat} :
    ∀ (rest : List TopicCluster) (i : Nat) (best : Option (Nat × PyFloat)) (j : Nat) (dj : PyFloat),
      shrinkSelectGo n i rest best = some (j, dj) →
      best = some (j, dj) ∨
        ∃ k, k < rest.length ∧ j = i + k ∧ dj = duration (rest.getD k defaultCluster) := by
  intro rest
  induction rest with
  | nil =>
    intro i best j dj h
    simp only [shrinkSelectGo] at h
    exact Or.inl h
  | cons c rest ih =>
    intro i best j dj h
    simp only [shrinkSelectGo] at h
    split at h
    · rcases ih (i + 1) _ j dj h with hbest | ⟨k, hk, hj, hd⟩
      · injection hbest with hb
        obtain ⟨h1, h2⟩ := Prod.ext_iff.mp hb
        refine Or.inr ⟨0, by simp, by omega, ?_⟩
        simpa using h2.symm
      · exact Or.inr ⟨k + 1, by simpa using hk, by omega, by simpa using hd⟩
    · rcases ih (i + 1) best j dj h with hbest | ⟨k, hk, hj, hd⟩
      · exact Or.inl hbest
      · exact Or.inr ⟨k + 1, by simpa using hk, by omega, by simpa using hd⟩

theorem set_eraseIdx_prev {α : Type} (l : List α) (i : Nat) (x : α)
    (h0 : 0 < i) (hi : i < l.length) :
    (l.set (i - 1) x).eraseIdx i = l.take (i - 1) ++ x :: l.drop (i + 1) := by
  rw [List.set_eq_take_append_cons_drop, if_pos (by omega : i - 1 < l.length),
      List.eraseIdx_eq_take_drop_succ, List.take_append_eq_append_take,
      List.drop_append_eq_append_drop]
  have hlen : (l.take (i - 1)).length = i - 1 := by rw [List.length_take]; omega
  rw [List.take_of_length_le (by omega : (l.take (i - 1)).length ≤ i), hlen]
  have h1 : i - (i - 1) = 1 := by omega
  have h2 : i + 1 - (i - 1) = 2 := by omega
  rw [h1, h2, List.drop_of_length_le (by omega : (l.take (i - 1)).length ≤ i + 1)]
  simp [List.drop_drop]
  congr 1
  omega

theorem set_eraseIdx_next {α : Type} (l : List α) (i : Nat) (x : α)
    (hi : i + 1 < l.length) :
    (l.set i x).eraseIdx (i + 1) = l.take i ++ x :: l.drop (i + 2) := by
  rw [List.set_eq_take_append_cons_drop, if_pos (by omega : i < l.length),
      List.eraseIdx_eq_take_drop_succ, List.take_append_eq_append_take,
      List.drop_append_eq_append_drop]
  have hlen : (l.take i).length = i := by rw [List.length_take]; omega
  rw [List.take_of_length_le (by omega : (l.take i).length ≤ i + 1), hlen]
  have h1 : i + 1 - i = 1 := by omega
  have h2 : i + 1 + 1 - i = 2 := by omega
  rw [h1, h2, List.drop_of_length_le (by omega : (l.take i).length ≤ i + 1 + 1)]
  simp [List.drop_drop]

/-- Three clusters with durations 10, 2, 10: the middle cluster is selected
and both of its neighbors have equal duration — the tie case of the shrink
phase. -/
def tieA : TopicCluster :=
  ⟨PyFloat.ofInt 0, PyFloat.ofInt 10, [⟨PyFloat.ofInt 0, PyFloat.ofInt 10, "a"⟩], "", []⟩

def tieB : TopicCluster :=
  ⟨PyFloat.ofInt 10, PyFloat.ofInt 12, [⟨PyFloat.ofInt 10, PyFloat.ofInt 12, "b"⟩], "", []⟩

def tieC : TopicCluster :=
  ⟨PyFloat.ofInt 12, PyFloat.ofInt 22, [⟨PyFloat.ofInt 12, PyFloat.ofInt 22, "c"⟩], "", []⟩

/-- C5, counterexample.  The claim says that when both neighbors of the
selected shortest cluster have equal duration, the merge goes into the
previous neighbor.  On clusters of durations (10, 2, 10) the code instead
merges the middle cluster into the NEXT neighbor: the guard requires the
previous duration to be strictly smaller, so on a tie it falls to the
`elif` branch. -/
theorem claim_c5_counterexample :
    duration ([tieA, tieB, tieC].getD 0 defaultCluster) =
      duration ([tieA, tieB, tieC].getD 2 defaultCluster) ∧
    shrinkStep [tieA, tieB, tieC] = some [tieA, mergeClusters tieB tieC] ∧
    shrinkStep [tieA, tieB, tieC] ≠ some [mergeClusters tieA tieB, tieC] := by
  refine ⟨rfl, rfl, ?_⟩
  decide

/-- C5, amended.  In the shrink phase the selected index carries the
smallest duration over the whole list, and the merge direction is: into the
previous neighbor when the previous neighbor is strictly shorter than the
next one (or when there is no next neighbor), and into the NEXT neighbor
otherwise — in particular ties go into the next neighbor, not the previous
one as claimed. -/
theorem claim_c5_amended (cs : List TopicCluster) (i : Nat) (d : PyFloat)
    (h : shrinkSelect cs = some (i, d)) (hn : 2 ≤ cs.length) :
    i < cs.length ∧ d = duration (cs.getD i defaultCluster) ∧
    (∀ j, j < cs.length → d ≤ duration (cs.getD j defaultCluster)) ∧
    (0 < i →
      (i + 1 = cs.length ∨
        duration (cs.getD (i - 1) defaultCluster) < duration (cs.getD (i + 1) defaultCluster)) →
      mergeAt cs i = cs.take (i - 1) ++
        mergeClusters (cs.getD (i - 1) defaultCluster) (cs.getD i defaultCluster) :: cs.drop (i + 1)) ∧
    (i + 1 < cs.length →
      (i = 0 ∨
        ¬ duration (cs.getD (i - 1) defaultCluster) < duration (cs.getD (i + 1) defaultCluster)) →
      mergeAt cs i = cs.take i ++
        mergeClusters (cs.getD i defaultCluster) (cs.getD (i + 1) defaultCluster) :: cs.drop (i + 2)) := by
  have hmem := shrinkSelectGo_mem cs 0 none i d h
  rcases hmem with hbad | ⟨k, hk, hj, hd⟩
  · exact absurd hbad (by simp)
  have hi : i < cs.length := by omega
  have hki : k = i := by omega
  have hdi : d = duration (cs.getD i defaultCluster) := by
    rw [hd, hki]
  have hmin := (shrinkSelectGo_min hn cs 0 none i d h).1
  refine ⟨hi, hdi, ?_, ?_, ?_⟩
  · intro j hjlen
    apply hmin
    rw [List.getD_eq_getElem cs defaultCluster hjlen]
    exact List.getElem_mem _
  · intro h0 hcase
    have hdisj : i = cs.length - 1 ∨
        duration (cs.getD (i - 1) defaultCluster) < duration (cs.getD (i + 1) defaultCluster) := by
      rcases hcase with he | hlt
      · exact Or.inl (by omega)
      · exact Or.inr hlt
    unfold mergeAt
    rw [if_pos ⟨h0, hdisj⟩]
    exact set_eraseIdx_prev cs i _ h0 hi
  · intro hi1 hcase
    unfold mergeAt
    rw [if_neg ?hneg, if_pos (by omega : i < cs.length - 1)]
    · exact set_eraseIdx_next cs i _ hi1
    case hneg =>
      rintro ⟨hpos, hdisj⟩
      rcases hcase with rfl | hnl
      · omega
      · rcases hdisj with he | hlt
        · omega
        · exact hnl hlt

/-- Witness for C5: the tie input satisfies the amended theorem, and the
merge at the tie goes into the next neighbor. -/
theorem claim_c5_witness :
    shrinkSelect [tieA, tieB, tieC] = some (1, duration tieB) ∧
    2 ≤ ([tieA, tieB, tieC] : List TopicCluster).length ∧
    mergeAt [tieA, tieB, tieC] 1 = [tieA, tieB, tieC].take 1 ++
      mergeClusters ([tieA, tieB, tieC].getD 1 defaultCluster)
        ([tieA, tieB, tieC].getD 2 defaultCluster) :: [tieA, tieB, tieC].drop 3 := by
  refine ⟨rfl, by norm_num, ?_⟩
  exact (claim_c5_amended [tieA, tieB, tieC] 1 (duration tieB) rfl (by norm_num)).2.2.2.2
    (by norm_num) (Or.inr (by decide))

/-- The spacing relation guaranteed between consecutive accepted
candidates: a later candidate with nonzero time lies at least
`min_duration` after its predecessor (zero-time candidates are exempt by
the `time != 0` test). -/
def vSpacing (mind : Int) (a b : Timestamp) : Prop :=
  ¬ PyFloat.eqv b.time (PyFloat.ofInt 0) → PyFloat.ofInt mind ≤ b.time - a.time

/-- Invariants of the validation loop: the accepted list is chained by
`vSpacing`, every accepted time is non-negative, at most one candidate is
accepted per raw entry, and the head (when nonzero) lies `min_duration`
past the incoming `last_time`. -/
theorem validateEntries_props (dur : PyFloat) (mind : Int) :
    ∀ (entries : List Json) (last : PyFloat),
      List.Chain' (vSpacing mind) (validateEntries dur mind last entries) ∧
      (∀ x ∈ validateEntries dur mind last entries, PyFloat.ofInt 0 ≤ x.time) ∧
      (validateEntries dur mind last entries).length ≤ entries.length ∧
      (∀ h t, validateEntries dur mind last entries = h :: t →
        ¬ PyFloat.eqv h.time (PyFloat.ofInt 0) → PyFloat.ofInt mind ≤ h.time - last) := by
  intro entries
  induction entries with
  | nil =>
    intro last
    refine ⟨by simp [validateEntries], by simp [validateEntries], by simp [validateEntries], ?_⟩
    intro h t he
    simp [validateEntries] at he
  | cons e rest ih =>
    intro last
    have hskip : ∀ last2 : PyFloat,
        List.Chain' (vSpacing mind) (validateEntries dur mind last2 rest) ∧
        (∀ x ∈ validateEntries dur mind last2 rest, PyFloat.ofInt 0 ≤ x.time) ∧
        (validateEntries dur mind last2 rest).length ≤ (e :: rest).length ∧
        (∀ h t, validateEntries dur mind last2 rest = h :: t →
          ¬ PyFloat.eqv h.time (PyFloat.ofInt 0) → PyFloat.ofInt mind ≤ h.time - last2) := by
      intro last2
      obtain ⟨c, nn, ln, hd⟩ := ih last2
      exact ⟨c, nn, by simpa using Nat.le_succ_of_le ln, hd⟩
    cases e with
    | null => simpa only [validateEntries] using hskip last
    | bool b => simpa only [validateEntries] using hskip last
    | num v => simpa only [validateEntries] using hskip last
    | str s => simpa only [validateEntries] using hskip last
    | arr xs => simpa only [validateEntries] using hskip last
    | obj fields =>
      simp only [validateEntries]
      cases hpf : pyFloatOfJson ((jsonGetField fields "time").getD (Json.num (PyFloat.ofInt 0))) with
      | none => exact hskip last
      | some t0 =>
        dsimp only
        by_cases htitle :
            pyStrip (pyStrOfJson ((jsonGetField fields "title").getD (Json.str ""))) = ""
        · rw [if_pos htitle]
          exact hskip last
        · rw [if_neg htitle]
          by_cases hdur : dur < (if t0 < PyFloat.ofInt 0 then PyFloat.ofInt 0 else t0)
          · rw [if_pos hdur]
            exact hskip last
          · rw [if_neg hdur]
            by_cases hsp : (if t0 < PyFloat.ofInt 0 then PyFloat.ofInt 0 else t0) - last <
                  PyFloat.ofInt mind ∧
                ¬ PyFloat.eqv (if t0 < PyFloat.ofInt 0 then PyFloat.ofInt 0 else t0)
                  (PyFloat.ofInt 0)
            · rw [if_pos hsp]
              exact hskip last
            · rw [if_neg hsp]
              obtain ⟨c, nn, ln, hd⟩ :=
                ih (if t0 < PyFloat.ofInt 0 then PyFloat.ofInt 0 else t0)
              refine ⟨?_, ?_, ?_, ?_⟩
              · rw [List.chain'_cons']
                refine ⟨?_, c⟩
                intro h2 hh2
                cases hlist : validateEntries dur mind
                    (if t0 < PyFloat.ofInt 0 then PyFloat.ofInt 0 else t0) rest with
                | nil => rw [hlist] at hh2; simp at hh2
                | cons hh tt =>
                  rw [hlist] at hh2
                  simp at hh2
                  subst hh2
                  exact hd hh tt hlist
              · intro x hx
                rcases List.mem_cons.mp hx with rfl | hmem
                · by_cases hneg : t0 < PyFloat.ofInt 0
                  · simp only [if_pos hneg]
                    exact PyFloat.le_refl _
                  · simp only [if_neg hneg]
                    exact PyFloat.not_lt.mp hneg
                · exact nn x hmem
              · simpa using Nat.succ_le_succ ln
              · intro h t he
                injection he with he1 he2
                subst he1
                intro hne
                have hnlt : ¬ ((if t0 < PyFloat.ofInt 0 then PyFloat.ofInt 0 else t0) - last <
                    PyFloat.ofInt mind) := fun hlt => hsp ⟨hlt, hne⟩
                exact PyFloat.not_lt.mp hnlt

/-- C6, amended.  In the model-path validation loop a candidate closer than
`min_duration` to the last accepted one is dropped unless its time is
exactly 0 — the exemption is `time != 0`, not "first accepted candidate".
Consequently every pair of consecutive accepted entries whose later entry
has nonzero time is spaced by at least `min_duration`, while each
additional zero-time entry may lie arbitrarily close to its predecessor. -/
theorem claim_c6_amended (dur : PyFloat) (mind : Int) (entries : List Json) :
    List.Chain' (vSpacing mind) (validateEntries dur mind (PyFloat.ofInt (-mind)) entries) :=
  (validateEntries_props dur mind entries _).1

/-- A model reply whose `timestamps` array holds three distinct candidates
all at time 0. -/
def c6Response : String :=
  "\x7b\"timestamps\":[\x7b\"time\":0,\"title\":\"a\"\x7d,\x7b\"time\":0,\"title\":\"b\"\x7d,\x7b\"time\":0,\"title\":\"c\"\x7d]\x7d"

/-- C6, counterexample.  The claim says only the first accepted candidate
is exempt from the spacing rule, so at most one accepted entry could lie
closer than `min_duration` to its predecessor.  Three zero-time candidates
are all accepted (each exempt through `time != 0` being false), giving a
final list in which TWO entries lie closer than `min_duration = 30` to
their predecessors. -/
theorem claim_c6_counterexample :
    (parse_timestamps_from_response c6Response (PyFloat.ofInt 100) 30).getD [] =
      [⟨PyFloat.ofInt 0, "a", PyFloat.ofInt 1⟩, ⟨PyFloat.ofInt 0, "b", PyFloat.ofInt 1⟩,
       ⟨PyFloat.ofInt 0, "c", PyFloat.ofInt 1⟩] ∧
    (((parse_timestamps_from_response c6Response (PyFloat.ofInt 100) 30).getD []).getD 1
        fallbackTS).time -
      (((parse_timestamps_from_response c6Response (PyFloat.ofInt 100) 30).getD []).getD 0
        fallbackTS).time < PyFloat.ofInt 30 ∧
    (((parse_timestamps_from_response c6Response (PyFloat.ofInt 100) 30).getD []).getD 2
        fallbackTS).time -
      (((parse_timestamps_from_response c6Response (PyFloat.ofInt 100) 30).getD []).getD 1
        fallbackTS).time < PyFloat.ofInt 30 := by
  refine ⟨rfl, ?_, ?_⟩ <;> decide

/-- When the accepted list is chronologically sorted and holds at most one
zero-time entry, the zero-exemption cannot fire after the head, so the
spacing chain holds unconditionally. -/
theorem chain_spacing_of_sorted (mind : Int) :
    ∀ l : List Timestamp,
      List.Chain' (vSpacing mind) l →
      List.Sorted tsLe l →
      (∀ x ∈ l, PyFloat.ofInt 0 ≤ x.time) →
      l.countP (fun x => decide (PyFloat.eqv x.time (PyFloat.ofInt 0))) ≤ 1 →
      List.Chain' (fun a b => PyFloat.ofInt mind ≤ b.time - a.time) l := by
  intro l
  induction l with
  | nil => intro _ _ _ _; simp
  | cons a l ih =>
    intro hc hs hn hz
    rw [List.chain'_cons'] at hc ⊢
    rcases hc with ⟨hhead, htail⟩
    rw [List.sorted_cons] at hs
    refine ⟨?_, ?_⟩
    · intro b hb
      by_cases hbz : PyFloat.eqv b.time (PyFloat.ofInt 0)
      · exfalso
        have hb_mem : b ∈ l := by
          cases l with
          | nil => simp at hb
          | cons x t => simp at hb; subst hb; exact List.mem_cons_self _ _
        have hab : a.time ≤ b.time := hs.1 b hb_mem
        have haz : PyFloat.eqv a.time (PyFloat.ofInt 0) :=
          PyFloat.le_of_eqv_zero_of_nonneg (hn a (List.mem_cons_self _ _)) hab hbz
        have hbcount : 0 < l.countP
            (fun x => decide (PyFloat.eqv x.time (PyFloat.ofInt 0))) :=
          List.countP_pos_iff.mpr ⟨b, hb_mem, by simpa using hbz⟩
        rw [List.countP_cons, if_pos (by simpa using haz)] at hz
        omega
      · exact hhead b hb hbz
    · exact ih htail hs.2 (fun x hx => hn x (List.mem_cons_of_mem a hx))
        (by
          rw [List.countP_cons] at hz
          omega)

/-- The accepted times in the heuristic scenario below: the two-segment
19-second transcript of the specification scenario. -/
def scenTranscript : Transcript :=
  ⟨"pt",
   [⟨PyFloat.ofInt 0, PyFloat.ofInt 5, "hello"⟩,
    ⟨PyFloat.ofInt 5, PyFloat.ofInt 19, "world test"⟩],
   PyFloat.ofInt 19⟩

/-- C2, counterexample.  On the scenario transcript (19s, two segments)
with `min_duration = 30` the heuristic path returns filler entries at 2 and
4 seconds: the SECOND consecutive pair of the final list is spaced by only
2 < 30 seconds, with no synthesized-first-pair exemption applying. -/
theorem claim_c2_counterexample :
    ((smartGenerate scenTranscript "Vídeo" 30 (PyFloat.ofInt 120)).getD 1 ⟨0, ""⟩).time = 2 ∧
    ((smartGenerate scenTranscript "Vídeo" 30 (PyFloat.ofInt 120)).getD 2 ⟨0, ""⟩).time = 4 ∧
    ¬ ((30 : Int) ≤
        ((smartGenerate scenTranscript "Vídeo" 30 (PyFloat.ofInt 120)).getD 2 ⟨0, ""⟩).time -
        ((smartGenerate scenTranscript "Vídeo" 30 (PyFloat.ofInt 120)).getD 1 ⟨0, ""⟩).time) := by
  refine ⟨rfl, rfl, by decide⟩

/-- C2, amended.  Monotonic spacing holds on the MODEL path under the
conditions the code actually guarantees: when the accepted candidates come
out chronologically ordered with at most one zero-time entry, every pair of
consecutive entries of the finalized list after the first is spaced by at
least `min_duration` (the first pair may be closer when the leading entry
is synthesized at 0).  The heuristic path does not satisfy the claim: its
filler entries may be arbitrarily close (see the counterexample). -/
theorem claim_c2_amended (dur : PyFloat) (mind : Int) (entries : List Json)
    (hsorted : List.Sorted tsLe (validateEntries dur mind (PyFloat.ofInt (-mind)) entries))
    (hzero : (validateEntries dur mind (PyFloat.ofInt (-mind)) entries).countP
        (fun x => decide (PyFloat.eqv x.time (PyFloat.ofInt 0))) ≤ 1) :
    List.Chain' (fun a b => PyFloat.ofInt mind ≤ b.time - a.time)
      ((finalizeTimestamps (validateEntries dur mind (PyFloat.ofInt (-mind)) entries)).tail) := by
  obtain ⟨hchain, hnn, _, _⟩ := validateEntries_props dur mind entries (PyFloat.ofInt (-mind))
  have hfull := chain_spacing_of_sorted mind _ hchain hsorted hnn hzero
  unfold finalizeTimestamps
  cases hacc : validateEntries dur mind (PyFloat.ofInt (-mind)) entries with
  | nil =>
    simp [List.Sorted.insertionSort_eq (by simp : List.Sorted tsLe [introTS])]
  | cons h t =>
    rw [hacc] at hfull hsorted hnn
    dsimp only
    by_cases h5 : PyFloat.ofInt 5 < h.time
    · rw [if_pos h5]
      have hsorted2 : List.Sorted tsLe (introTS :: h :: t) := by
        rw [List.sorted_cons]
        exact ⟨fun b hb => hnn b hb, hsorted⟩
      rw [List.Sorted.insertionSort_eq hsorted2]
      exact hfull
    · rw [if_neg h5]
      rw [List.Sorted.insertionSort_eq hsorted]
      exact List.Chain'.tail hfull

/-- Witness for C2: a sorted three-candidate reply with a single zero-time
entry satisfies the hypotheses, and the amended spacing conclusion follows. -/
theorem claim_c2_witness :
    List.Sorted tsLe (validateEntries (PyFloat.ofInt 100) 30 (PyFloat.ofInt (-30))
      [Json.obj [("time", Json.num (PyFloat.ofInt 0)), ("title", Json.str "A")],
       Json.obj [("time", Json.num (PyFloat.ofInt 40)), ("title", Json.str "B")],
       Json.obj [("time", Json.num (PyFloat.ofInt 80)), ("title", Json.str "C")]]) ∧
    (validateEntries (PyFloat.ofInt 100) 30 (PyFloat.ofInt (-30))
      [Json.obj [("time", Json.num (PyFloat.ofInt 0)), ("title", Json.str "A")],
       Json.obj [("time", Json.num (PyFloat.ofInt 40)), ("title", Json.str "B")],
       Json.obj [("time", Json.num (PyFloat.ofInt 80)), ("title", Json.str "C")]]).countP
        (fun x => decide (PyFloat.eqv x.time (PyFloat.ofInt 0))) ≤ 1 ∧
    List.Chain' (fun a b => PyFloat.ofInt 30 ≤ b.time - a.time)
      ((finalizeTimestamps (validateEntries (PyFloat.ofInt 100) 30 (PyFloat.ofInt (-30))
        [Json.obj [("time", Json.num (PyFloat.ofInt 0)), ("title", Json.str "A")],
         Json.obj [("time", Json.num (PyFloat.ofInt 40)), ("title", Json.str "B")],
         Json.obj [("time", Json.num (PyFloat.ofInt 80)), ("title", Json.str "C")]])).tail) :=
  ⟨by decide, by decide, claim_c2_amended (PyFloat.ofInt 100) 30 _ (by decide) (by decide)⟩

/-- C3, counterexample.  The claim says the pipeline returns exactly one
entry for the 19-second scenario; the heuristic generator in fact pads the
list up to `max(8, ...)` entries with filler timestamps, returning 8. -/
theorem claim_c3_counterexample :
    (smartGenerate scenTranscript "Vídeo" 30 (PyFloat.ofInt 120)).length ≠ 1 := by
  decide

/-- C3, amended.  On the scenario transcript (duration 19s, segments
(0,5,"hello") and (5,19,"world test"), `min_duration = 30`) the pipeline
produces a single content window and the single topic change 0, whose
entry is (time 0, title "Introdução"); the filler loop then pads the
list to `max(8, int(19/180)) = 8` entries at times `int(i * 19/8)` titled
by the positional fallback "Contexto inicial" and disambiguated with
" - Parte N".  The caller converts these dicts with confidence 0.8, not
1.0. -/
theorem claim_c3_amended :
    smartGenerate scenTranscript "Vídeo" 30 (PyFloat.ofInt 120) =
      [⟨0, "Introdução"⟩, ⟨2, "Contexto inicial"⟩, ⟨4, "Contexto inicial - Parte 2"⟩,
       ⟨7, "Contexto inicial - Parte 3"⟩, ⟨9, "Contexto inicial - Parte 4"⟩,
       ⟨11, "Contexto inicial - Parte 5"⟩, ⟨14, "Contexto inicial - Parte 6"⟩,
       ⟨16, "Contexto inicial - Parte 7"⟩] ∧
    ∀ x ∈ generate_timestamps_heuristic_path scenTranscript "Vídeo" 30,
      x.confidence = ⟨4, 5, by omega⟩ := by
  refine ⟨rfl, ?_⟩
  decide

theorem parteCandidate_inj (orig : String) {j k : Nat}
    (h : parteCandidate orig j = parteCandidate orig k) : j = k := by
  unfold parteCandidate at h
  have hd : orig.data ++ (" - Parte ".data ++ (pyStr j).data) =
      orig.data ++ (" - Parte ".data ++ (pyStr k).data) := by
    simpa [String.data_append, List.append_assoc] using congrArg String.data h
  have hd2 := List.append_cancel_left (List.append_cancel_left hd)
  exact pyStr_inj (congrArg String.mk hd2)

theorem freshLoop_not_mem (orig : String) (seen : List String) :
    ∀ fuel k, (∃ m, m < fuel ∧ parteCandidate orig (k + m) ∉ seen) →
      freshLoop orig seen fuel k ∉ seen := by
  intro fuel
  induction fuel with
  | zero =>
    rintro k ⟨m, hm, _⟩
    omega
  | succ f ih =>
    rintro k ⟨m, hm, hnot⟩
    simp only [freshLoop]
    by_cases hc : parteCandidate orig k ∈ seen
    · rw [if_pos hc]
      apply ih
      have hm0 : m ≠ 0 := by
        rintro rfl
        exact hnot (by simpa using hc)
      refine ⟨m - 1, by omega, ?_⟩
      have : k + 1 + (m - 1) = k + m := by omega
      rw [this]
      exact hnot
    · rw [if_neg hc]
      exact hc

/-- The disambiguation loop always escapes `seen`: among the
`seen.length + 1` pairwise-distinct candidates tried within the fuel bound,
at least one is fresh. -/
theorem freshTitle_not_mem (seen : List String) (orig : String) :
    freshTitle seen orig ∉ seen := by
  apply freshLoop_not_mem
  by_contra hall
  push_neg at hall
  have hsub : ∀ x ∈ (List.range' 2 (seen.length + 1)).map (parteCandidate orig), x ∈ seen := by
    intro x hx
    rcases List.mem_map.mp hx with ⟨a, ha, rfl⟩
    rcases List.mem_range'.mp ha with ⟨i, hi, rfl⟩
    simpa using hall i hi
  have hnodup : ((List.range' 2 (seen.length + 1)).map (parteCandidate orig)).Nodup :=
    (List.nodup_range' 2 (seen.length + 1)).map
      (fun a b hab => parteCandidate_inj orig hab)
  have hcard1 : ((List.range' 2 (seen.length + 1)).map (parteCandidate orig)).toFinset.card =
      seen.length + 1 := by
    rw [List.toFinset_card_of_nodup hnodup]
    simp
  have hsubf : ((List.range' 2 (seen.length + 1)).map (parteCandidate orig)).toFinset ⊆
      seen.toFinset := by
    intro x hx
    rw [List.mem_toFinset] at hx ⊢
    exact hsub x hx
  have := Finset.card_le_card hsubf
  have hle := List.toFinset_card_le seen
  omega

/-- The uniqueness pass produces pairwise-distinct titles, all avoiding the
incoming `seen` set. -/
theorem uniquifyTitles_props :
    ∀ (l : List SmartTS) (seen : List String),
      List.Pairwise (fun a b : SmartTS => a.title ≠ b.title) (uniquifyTitles seen l) ∧
      (∀ x ∈ uniquifyTitles seen l, x.title ∉ seen) := by
  intro l
  induction l with
  | nil => intro seen; simp [uniquifyTitles]
  | cons t rest ih =>
    intro seen
    simp only [uniquifyTitles]
    obtain ⟨hp, hs⟩ :=
      ih ((if t.title ∈ seen then freshTitle seen t.title else t.title) :: seen)
    refine ⟨?_, ?_⟩
    · rw [List.pairwise_cons]
      refine ⟨?_, hp⟩
      intro b hb
      have hbmem := hs b hb
      simp only [List.mem_cons, not_or] at hbmem
      exact fun he => hbmem.1 he.symm
    · intro x hx
      rcases List.mem_cons.mp hx with rfl | hmem
      · show (if t.title ∈ seen then freshTitle seen t.title else t.title) ∉ seen
        by_cases hin : t.title ∈ seen
        · rw [if_pos hin]
          exact freshTitle_not_mem seen t.title
        · rw [if_neg hin]
          exact hin
      · exact (fun hmem2 => ((hs x hmem).elim (List.mem_cons_of_mem _ hmem2)))

/-- The model reply of the C4 counterexample: two well-spaced candidates
with identical titles. -/
def c4Response : String :=
  "\x7b\"timestamps\":[\x7b\"time\":0,\"title\":\"A\"\x7d,\x7b\"time\":50,\"title\":\"A\"\x7d]\x7d"

/-- C4, counterexample.  The claim asserts title uniqueness for every final
list, including model-path lists; but `parse_timestamps_from_response`
applies no uniqueness pass, and two accepted candidates sharing the title
"A" survive to the final list unchanged. -/
theorem claim_c4_counterexample :
    (parse_timestamps_from_response c4Response (PyFloat.ofInt 100) 30).getD [] =
      [⟨PyFloat.ofInt 0, "A", PyFloat.ofInt 1⟩, ⟨PyFloat.ofInt 50, "A", PyFloat.ofInt 1⟩] ∧
    ¬ List.Pairwise (fun a b : Timestamp => a.title ≠ b.title)
        ((parse_timestamps_from_response c4Response (PyFloat.ofInt 100) 30).getD []) := by
  refine ⟨rfl, ?_⟩
  decide

/-- C4, amended.  Title uniqueness holds for the HEURISTIC final lists: the
suffixing pass of `_generate_final_timestamps` always finds a fresh
` - Parte N` disambiguation, so no two entries of its output share a title.
Model-path and merged lists are not deduplicated by title (see the
counterexample). -/
theorem claim_c4_amended (windows : List ContentWindow) (topicChanges : List Nat)
    (videoTitle : String) (mind : Int) (hw : windows ≠ []) :
    List.Pairwise (fun a b : SmartTS => a.title ≠ b.title)
      (generateFinalTimestamps windows topicChanges videoTitle mind) := by
  unfold generateFinalTimestamps
  exact (uniquifyTitles_props _ []).1

/-- Witness for C4 on the scenario pipeline windows. -/
theorem claim_c4_witness :
    createContentWindows scenTranscript (PyFloat.ofInt 120) ≠ [] ∧
    List.Pairwise (fun a b : SmartTS => a.title ≠ b.title)
      (generateFinalTimestamps (createContentWindows scenTranscript (PyFloat.ofInt 120))
        (detectTopicChanges (createContentWindows scenTranscript (PyFloat.ofInt 120)))
        "Vídeo" 30) :=
  ⟨by decide, claim_c4_amended _ _ _ _ (by decide)⟩

theorem finalizeTimestamps_ne_nil_and_len (l : List Timestamp) :
    finalizeTimestamps l ≠ [] ∧ (finalizeTimestamps l).length ≤ l.length + 1 := by
  unfold finalizeTimestamps
  cases l with
  | nil =>
    constructor
    · intro h
      have hlen := List.length_insertionSort tsLe [introTS]
      rw [h] at hlen
      simp at hlen
    · rw [List.length_insertionSort]
      simp
  | cons h t =>
    dsimp only
    by_cases h5 : PyFloat.ofInt 5 < h.time
    · rw [if_pos h5]
      constructor
      · intro hcon
        have hlen := List.length_insertionSort tsLe (introTS :: h :: t)
        rw [hcon] at hlen
        simp at hlen
      · rw [List.length_insertionSort]
        simp
    · rw [if_neg h5]
      constructor
      · intro hcon
        have hlen := List.length_insertionSort tsLe (h :: t)
        rw [hcon] at hlen
        simp at hlen
      · rw [List.length_insertionSort]
        simp

/-- C7.  `parse_timestamps_from_response` degrades gracefully on every
enumerated defect: no extractable JSON, undecodable JSON, a missing, empty
or otherwise falsy `timestamps` field — each yields exactly the single
default timestamp at time 0 — and an iterable `timestamps` value never
yields an empty result, with at most one accepted candidate per raw entry
plus the optional synthesized introduction; every returned list is
non-empty. -/
theorem claim_c7_parse_tolerance (s : String) (dur : PyFloat) (mind : Int) :
    (jsonExtract s = none → parse_timestamps_from_response s dur mind = some [fallbackTS]) ∧
    (∀ slice, jsonExtract s = some slice → parseJsonTop slice = none →
      parse_timestamps_from_response s dur mind = some [fallbackTS]) ∧
    (∀ j, extractStage s = some j → jsonFalsy (rawTimestampsOf j) = true →
      parse_timestamps_from_response s dur mind = some [fallbackTS]) ∧
    (∀ j entries, extractStage s = some j → jsonFalsy (rawTimestampsOf j) = false →
      iterElems (rawTimestampsOf j) = some entries →
      ∃ l, parse_timestamps_from_response s dur mind = some l ∧
        l ≠ [] ∧ l.length ≤ entries.length + 1 ∧
        (validateEntries dur mind (PyFloat.ofInt (-mind)) entries).length ≤ entries.length) ∧
    (∀ l, parse_timestamps_from_response s dur mind = some l → l ≠ []) := by
  refine ⟨?_, ?_, ?_, ?_, ?_⟩
  · intro he
    simp [parse_timestamps_from_response, extractStage, he]
  · intro slice hs hp
    simp [parse_timestamps_from_response, extractStage, hs, hp]
  · intro j hj hf
    simp [parse_timestamps_from_response, hj, hf]
  · intro j entries hj hf hit
    obtain ⟨hne, hlen⟩ :=
      finalizeTimestamps_ne_nil_and_len (validateEntries dur mind (PyFloat.ofInt (-mind)) entries)
    have hvlen := (validateEntries_props dur mind entries (PyFloat.ofInt (-mind))).2.2.1
    refine ⟨finalizeTimestamps (validateEntries dur mind (PyFloat.ofInt (-mind)) entries),
      ?_, hne, by omega, hvlen⟩
    simp [parse_timestamps_from_response, hj, hf, hit]
  · intro l hl
    unfold parse_timestamps_from_response at hl
    cases he : extractStage s with
    | none =>
      rw [he] at hl
      injection hl with hl
      rw [← hl]
      simp
    | some j =>
      rw [he] at hl
      dsimp only at hl
      by_cases hf : jsonFalsy (rawTimestampsOf j)
      · rw [if_pos hf] at hl
        injection hl with hl
        rw [← hl]
        simp
      · rw [if_neg hf] at hl
        cases hit : iterElems (rawTimestampsOf j) with
        | none =>
          rw [hit] at hl
          exact absurd hl (by simp)
        | some entries =>
          rw [hit] at hl
          injection hl with hl
          rw [← hl]
          exact (finalizeTimestamps_ne_nil_and_len _).1

/-- Witness for C7: a reply with no JSON block yields exactly the single
default timestamp at time 0. -/
theorem claim_c7_witness :
    jsonExtract "The model returned no JSON at all." = none ∧
    parse_timestamps_from_response "The model returned no JSON at all."
      (PyFloat.ofInt 100) 30 = some [fallbackTS] :=
  ⟨rfl,
   (claim_c7_parse_tolerance "The model returned no JSON at all." (PyFloat.ofInt 100) 30).1 rfl⟩

/-- C8.  When no heuristic candidate lies within 30 seconds of any
model-origin candidate, the merge keeps every entry of both lists (the
dedup filter passes every heuristic entry) and returns them sorted by
time. -/
theorem claim_c8_merge_union (model heur : List Timestamp)
    (H : ∀ h ∈ heur, ∀ m ∈ model, ¬ PyFloat.pyAbs (h.time - m.time) < PyFloat.ofInt 30) :
    (mergeTimestamps model heur).Perm (model ++ heur) ∧
    List.Sorted tsLe (mergeTimestamps model heur) := by
  unfold mergeTimestamps
  have hfilter : heur.filter (fun h =>
      ! model.any (fun m => decide (PyFloat.pyAbs (h.time - m.time) < PyFloat.ofInt 30))) =
      heur := by
    rw [List.filter_eq_self]
    intro a ha
    simp only [Bool.not_eq_true', List.any_eq_false]
    exact fun m hm => by simpa using H a ha m hm
  rw [hfilter]
  exact ⟨List.perm_insertionSort tsLe _, List.sorted_insertionSort tsLe _⟩

def c8Model : List Timestamp := [⟨PyFloat.ofInt 0, "A", PyFloat.ofInt 1⟩]

def c8Heur : List Timestamp := [⟨PyFloat.ofInt 40, "B", ⟨7, 10, by omega⟩⟩]

/-- Witness for C8: one model entry at 0 and one heuristic entry at 40. -/
theorem claim_c8_witness :
    (∀ h ∈ c8Heur, ∀ m ∈ c8Model, ¬ PyFloat.pyAbs (h.time - m.time) < PyFloat.ofInt 30) ∧
    (mergeTimestamps c8Model c8Heur).Perm (c8Model ++ c8Heur) ∧
    List.Sorted tsLe (mergeTimestamps c8Model c8Heur) :=
  ⟨by decide, (claim_c8_merge_union c8Model c8Heur (by decide)).1,
   (claim_c8_merge_union c8Model c8Heur (by decide)).2⟩

/-- C9.  A transcript with zero segments short-circuits every embedded
entry point: the smart generator returns the single `Início do Vídeo` entry
at time 0, the heuristic conversion wraps it with confidence 0.8, and the
model path returns the single language-dependent default with confidence
0.5 — all confidences at most 1, and no path can raise (each returns before
touching windows, parsing or the network). -/
theorem claim_c9_empty_transcript (t : Transcript) (videoTitle : String) (mind : Int)
    (wsize : PyFloat) (resp : String) (hempty : t.segments = []) :
    smartGenerate t videoTitle mind wsize = [⟨0, "Início do Vídeo"⟩] ∧
    generate_timestamps_heuristic_path t videoTitle mind =
      [⟨PyFloat.ofInt 0, "Início do Vídeo", ⟨4, 5, by omega⟩⟩] ∧
    generate_timestamps_model t videoTitle mind resp =
      some [⟨PyFloat.ofInt 0,
             if t.language = "pt" ∨ t.language = "pt-br" then "Conteúdo do Vídeo"
             else "Video Content",
             ⟨1, 2, by omega⟩⟩] ∧
    (⟨1, 2, by omega⟩ : PyFloat) ≤ PyFloat.ofInt 1 ∧
    (⟨4, 5, by omega⟩ : PyFloat) ≤ PyFloat.ofInt 1 := by
  have hb : t.segments.isEmpty = true := by simp [hempty]
  refine ⟨?_, ?_, ?_, by decide, by decide⟩
  · simp [smartGenerate, hb]
  · simp [generate_timestamps_heuristic_path, generate_smart_timestamps, smartGenerate, hb]
  · simp [generate_timestamps_model, hb]

def emptyTranscript : Transcript := ⟨"pt", [], PyFloat.ofInt 0⟩

/-- Witness for C9 on a concrete empty Portuguese transcript. -/
theorem claim_c9_witness :
    emptyTranscript.segments = [] ∧
    smartGenerate emptyTranscript "Vídeo" 60 (PyFloat.ofInt 120) = [⟨0, "Início do Vídeo"⟩] ∧
    generate_timestamps_model emptyTranscript "Vídeo" 30 "whatever" =
      some [⟨PyFloat.ofInt 0,
             if emptyTranscript.language = "pt" ∨ emptyTranscript.language = "pt-br" then
               "Conteúdo do Vídeo"
             else "Video Content",
             ⟨1, 2, by omega⟩⟩] :=
  ⟨rfl,
   (claim_c9_empty_transcript emptyTranscript "Vídeo" 60 (PyFloat.ofInt 120) "whatever" rfl).1,
   (claim_c9_empty_transcript emptyTranscript "Vídeo" 30 (PyFloat.ofInt 120) "whatever" rfl).2.2.1⟩

theorem uniquifyTitles_length : ∀ (l : List SmartTS) (seen : List String),
    (uniquifyTitles seen l).length = l.length := by
  intro l
  induction l with
  | nil => intro seen; simp [uniquifyTitles]
  | cons t rest ih =>
    intro seen
    simp [uniquifyTitles, ih]

/-- C10.  The heuristic final list is truncated to at most 20 entries
(`timestamps = timestamps[:20]`), and the title-uniqueness pass preserves
length; so every non-empty transcript yields at most 20 entries regardless
of the duration-derived target count. -/
theorem claim_c10_cap (t : Transcript) (videoTitle : String) (mind : Int) (wsize : PyFloat)
    (h : t.segments ≠ []) :
    (smartGenerate t videoTitle mind wsize).length ≤ 20 := by
  unfold smartGenerate
  rw [if_neg (by simpa using h)]
  unfold generateFinalTimestamps
  rw [uniquifyTitles_length]
  rw [List.length_take]
  exact Nat.min_le_left _ _

/-- Witness for C10 on the scenario transcript. -/
theorem claim_c10_witness :
    scenTranscript.segments ≠ [] ∧
    (smartGenerate scenTranscript "Vídeo" 30 (PyFloat.ofInt 120)).length ≤ 20 :=
  ⟨by decide, claim_c10_cap scenTranscript "Vídeo" 30 (PyFloat.ofInt 120) (by decide)⟩
